import Mathlib

/-!
Verification of the retrieval-augmented tutoring service in `src/main.py`.

The development shallowly embeds the serving core of the repository:
  * `get_context`      — the tiered knowledge lookup (main.py lines 69-104),
  * `clean_for_whatsapp` — the messaging cleanup transform (lines 62-66),
  * `process_text_images` — the `[IMAGE: ...]` tag expansion (lines 107-118),
  * `ask_the_brain`    — the answer orchestrator (lines 121-207),
  * `whatsapp_reply`   — the messaging endpoint envelope (lines 302-314),
  * a small-step model of the lazy client-bundle initialiser (lines 27-59).

Texts are `List Char`; machine strings of the source are transcribed as Lean
string literals (braces written via hex escapes, apostrophes via `Char.ofNat 39`).
External collaborators (embedding client, vector search, table query, chat
completion) are oracles returning `Except PyExc _`: an `.error` models a raised
Python exception, and the embedding makes every `try/except` of the source an
explicit `match` on the oracle result.
-/

abbrev Str := List Char

/-- A raised Python exception, carrying `str(e)`. -/
structure PyExc where
  msg : Str
deriving DecidableEq

/-- Python truthiness of an optional string (`None` and `""` are falsy). -/
def pyTruthy (o : Option Str) : Bool :=
  match o with
  | none => false
  | some s => !s.isEmpty

/-- The apostrophe character, kept out of string literals. -/
def apChar : Char := Char.ofNat 39

/-- The apostrophe as a one-character text. -/
def apS : Str := [apChar]

/-- A row returned by the knowledge store: `content`, `region`, optional
`image_url` (a missing key of the Python dict is `none`). -/
structure KMatch where
  content : Str
  region : Str
  image_url : Option Str
deriving DecidableEq

/-- Query embeddings; the core never inspects their numeric content. -/
abbrev Vec := List ℚ

/-- The client bundle assembled by `get_ai_tools` (main.py lines 27-59), seen
through the calls the serving core makes on it.  Each client call may raise. -/
structure Tools where
  /-- Oracle for `embeddings.embed_query(subject)` (line 76). -/
  embed_query : Str → Except PyExc Vec
  /-- Oracle for `supabase.rpc("match_cultural_knowledge", ...).execute().data`
  (lines 77-81), taking the query vector, `match_threshold`, `match_count`;
  a `null` data collapses to the empty list (both are falsy in the source). -/
  match_cultural_knowledge : Vec → ℚ → Nat → Except PyExc (List KMatch)
  /-- Oracle for `supabase.table(t).select("*").contains("metadata", f).limit(n).execute().data`
  (lines 91-95), taking the table name, the metadata containment filter and
  the row limit. -/
  table_contains_limit : Str → Str → Nat → Except PyExc (List KMatch)
  /-- Oracle for `(prompt | llm).invoke(...).content` (lines 190-197): the chat
  completion called on the fully rendered prompt text. -/
  invoke : Str → Except PyExc Str

/-- The process environment of one orchestrator call: `get_ai_tools()` either
returns the shared bundle or raises while connecting (lines 27-59). -/
structure Env where
  get_ai_tools : Except PyExc Tools

/- ### Text literals of `get_context` (main.py lines 69-104) -/

/-- Table name of the fallback query (line 91). -/
def cultural_table : Str := ("cultural_knowledge").data

/-- Metadata containment filter of the fallback query (line 93). -/
def general_filter : Str := ("\x7b\"topic\": \"General\"\x7d").data

/-- Narrative of a specific-tier hit (line 85). -/
def specific_narrative (m : KMatch) : Str :=
  ("Use this local metaphor: ").data ++ m.content ++ (" (Region: ").data ++ m.region ++ (")").data

/-- Narrative of a general-fallback hit (line 99). -/
def general_narrative (row : KMatch) : Str :=
  ("Use this general African wisdom: ").data ++ row.content ++ (" (Region: ").data ++ row.region ++ (")").data

/-- Final-resort narrative (line 104). -/
def no_context_narrative : Str :=
  ("No specific local metaphor found. Improvising based on general Nigerian culture.").data

/-- The first `try` block of `get_context` (main.py lines 74-87): embed the
subject and run the similarity RPC with threshold `0.20`, count `1`.  `none`
means the tier yielded nothing — a caught exception from either client call,
or an empty (or null, which is equally falsy) `response.data`. -/
def tier1_lookup (subject : Str) (tools : Tools) : Option (Str × Option Str) :=
  match tools.embed_query subject with
  | .error _ => none
  | .ok query_vector =>
    match tools.match_cultural_knowledge query_vector (0.20 : ℚ) 1 with
    | .error _ => none
    | .ok [] => none
    | .ok (m :: _) => some (specific_narrative m, m.image_url)

/-- Model of `get_context` (main.py lines 69-104): the specific tier, then the
general-wisdom fallback query inside its own `try/except` (a caught exception
and an empty result both fall through), then the fixed final resort.  The
`Except` result type records that the function could in principle propagate an
exception to its caller — the theorems show it never does. -/
def get_context (subject : Str) (tools : Tools) : Except PyExc (Str × Option Str) :=
  match tier1_lookup subject tools with
  | some r => .ok r
  | none =>
    match tools.table_contains_limit cultural_table general_filter 1 with
    | .ok (row :: _) => .ok (general_narrative row, none)
    | _ => .ok (no_context_narrative, none)

/- ### The prompt template (main.py lines 135-187)

`ChatPromptTemplate.from_template` is applied to an f-string whose `{{subject}}`
and `{{context}}` become the template variables `subject`/`context`; the persona
blocks spliced in by the f-string themselves contain `{subject}`/`{context}`
occurrences, which therefore also become template variables.  `formatTemplate`
below models the final `invoke({"subject", "context"})` substitution pass. -/

/-- The template variable `subject` in braces. -/
def subjVar : Str := ("\x7bsubject\x7d").data

/-- The template variable `context` in braces. -/
def ctxVar : Str := ("\x7bcontext\x7d").data

/-- Griot persona block (lines 138-149), up to its `subject` placeholder. -/
def griotA : Str :=
  ("\n            You are ").data ++ apS ++ ("Baba Agba").data ++ apS
    ++ (", an ancient African Griot (Storyteller).\n            DO NOT explain like a textbook.\n            INSTEAD, weave a short, engaging folktale involving Nigerian animals (Tortoise/Ijapa, Lion, Elephant) or village life to explain: ").data

/-- Griot persona block (lines 138-149), after its `subject` placeholder. -/
def griotB : Str :=
  (".\n            \n            Structure:\n            1. Start with a traditional opener like \"Story, story...!\" or \"Under the Baobab tree...\"\n            2. Tell the fable where the scientific concept is the main plot device (e.g., Friction is why Tortoise stopped sliding).\n            3. End with \"And that is why...\" linking the story back to the science definition.\n            \n            Tone: Wise, rhythmic, engaging. Use atmospheric descriptions.\n            ").data

/-- The griot-mode system instruction: its source literal contains the
`subject` placeholder once. -/
def system_instruction_griot : Str := griotA ++ subjVar ++ griotB

/-- Standard persona block (lines 152-157), up to `subject`. -/
def stdA : Str := ("\n            You are a Nigerian science tutor. \n            Explain: ").data

/-- Standard persona block between its `subject` and `context` placeholders. -/
def stdB : Str := (" clearly.\n            Use this context if relevant: ").data

/-- Standard persona block after its `context` placeholder. -/
def stdC : Str := ("\n            Tone: Friendly, academic but accessible.\n            ").data

/-- The standard-mode system instruction: its source literal contains the
`subject` and `context` placeholders once each. -/
def system_instruction_standard : Str := stdA ++ subjVar ++ stdB ++ ctxVar ++ stdC

/-- Persona block selection (line 136). -/
def system_instruction (mode : Str) : Str :=
  if mode = ("griot").data then system_instruction_griot else system_instruction_standard

/-- Pidgin tone block (line 162). -/
def tone_pidgin : Str :=
  ("Speak in Nigerian Pidgin English. Use slang like ").data ++ apS ++ ("Abeg").data ++ apS
    ++ (", ").data ++ apS ++ ("No wahala").data ++ apS ++ (", ").data ++ apS ++ ("Omo").data ++ apS
    ++ (" to make it fun.").data

/-- English tone block (line 164). -/
def tone_english : Str := ("Speak in clear, standard English.").data

/-- Tone block selection (line 161). -/
def tone_instruction (language : Str) : Str :=
  if language = ("pidgin").data then tone_pidgin else tone_english

/-- WhatsApp formatting block (line 168). -/
def formatting_whatsapp : Str :=
  ("Start with a friendly emoji. Use single * for bold. Use dashes for lists. No LaTeX. Keep under 100 words.").data

/-- Web formatting block (lines 170-174). -/
def formatting_web : Str :=
  ("\n             Use **Bold** for key terms. Use LaTeX for math ($E=mc^2$). \n             If you describe a specific physical concept that needs visualization, \n             insert an image tag like this: [IMAGE: short description].\n             ").data

/-- Formatting block selection (line 167). -/
def formatting_instruction ( is_whatsapp : Bool) : Str :=
  if is_whatsapp then formatting_whatsapp else formatting_web

/-- F-string glue before the system instruction (line 177). -/
def tplA : Str := ("\n        ").data

/-- F-string glue between system instruction and tone block. -/
def tplB : Str := ("\n        \n        TONE INSTRUCTION: ").data

/-- F-string glue between tone and formatting blocks. -/
def tplC : Str := ("\n        \n        FORMATTING:\n        ").data

/-- F-string glue before the escaped `Student asks:` placeholder. -/
def tplD1 : Str := ("\n        \n        Student asks: ").data

/-- F-string glue between the trailing placeholders. -/
def tplD2 : Str := ("\n        Context: ").data

/-- F-string glue after the trailing `context` placeholder. -/
def tplD3 : Str := ("\n        ").data

/-- The template text handed to `from_template` (lines 177-187): the f-string
with the selected blocks spliced in, and `{{subject}}`/`{{context}}` reduced to
single-brace placeholders. -/
def prompt_template (mode language : Str) ( is_whatsapp : Bool) : Str :=
  tplA ++ system_instruction mode ++ tplB ++ tone_instruction language ++ tplC
    ++ formatting_instruction is_whatsapp ++ tplD1 ++ subjVar ++ tplD2 ++ ctxVar ++ tplD3

/-- One fuel step of the `invoke` substitution pass: scan left to right and
replace each `subject`/`context` placeholder by the corresponding value,
exactly as `str.format` renders the template.  Fuel only pays for the
non-structural jump over a matched placeholder; `formatTemplate` supplies
enough fuel for the whole text. -/
def formatTemplateF : Nat → Str → Str → Str → Str
| 0, _, _, l => l
| _ + 1, _, _, [] => []
| f + 1, s, c, ch :: rest =>
  if subjVar.isPrefixOf (ch :: rest) then s ++ formatTemplateF f s c ((ch :: rest).drop 9)
  else if ctxVar.isPrefixOf (ch :: rest) then c ++ formatTemplateF f s c ((ch :: rest).drop 9)
  else ch :: formatTemplateF f s c rest

/-- Rendering of the prompt template with concrete `subject` and `context`
values (the `chain.invoke` call, lines 190-194). -/
def formatTemplate (s c tpl : Str) : Str := formatTemplateF tpl.length s c tpl

/-- Occurrence count of a pattern in a text (all start positions). -/
def countOccur (pat : Str) : Str → Nat
| [] => 0
| c :: cs => (if pat.isPrefixOf (c :: cs) then 1 else 0) + countOccur pat cs

/- ### Substitution-pass lemmas -/

theorem formatTemplateF_congr (s c : Str) : ∀ f1 f2 l, l.length ≤ f1 → l.length ≤ f2 →
    formatTemplateF f1 s c l = formatTemplateF f2 s c l := by
  intro f1
  induction f1 with
  | zero =>
    intro f2 l h1 _
    have : l = [] := List.length_eq_zero.mp (Nat.le_zero.mp h1)
    subst this
    cases f2 <;> rfl
  | succ f ih =>
    intro f2 l h1 h2
    match l with
    | [] => cases f2 <;> rfl
    | ch :: rest =>
      match f2 with
      | 0 => simp at h2
      | g + 1 =>
        rw [formatTemplateF, formatTemplateF]
        simp only [List.length_cons] at h1 h2
        by_cases hs : subjVar.isPrefixOf (ch :: rest)
        · rw [if_pos hs, if_pos hs]
          have hd : ((ch :: rest).drop 9).length ≤ f := by
            simp only [List.length_drop, List.length_cons]; omega
          have hd2 : ((ch :: rest).drop 9).length ≤ g := by
            simp only [List.length_drop, List.length_cons]; omega
          rw [ih g _ hd hd2]
        · rw [if_neg hs, if_neg hs]
          by_cases hc : ctxVar.isPrefixOf (ch :: rest)
          · rw [if_pos hc, if_pos hc]
            have hd : ((ch :: rest).drop 9).length ≤ f := by
              simp only [List.length_drop, List.length_cons]; omega
            have hd2 : ((ch :: rest).drop 9).length ≤ g := by
              simp only [List.length_drop, List.length_cons]; omega
            rw [ih g _ hd hd2]
          · rw [if_neg hc, if_neg hc]
            rw [ih g rest (by omega) (by omega)]

theorem subjVar_cons :
    subjVar = Char.ofNat 123 :: 's' :: 'u' :: 'b' :: 'j' :: 'e' :: 'c' :: 't' :: Char.ofNat 125 :: [] := by
  decide

theorem ctxVar_cons :
    ctxVar = Char.ofNat 123 :: 'c' :: 'o' :: 'n' :: 't' :: 'e' :: 'x' :: 't' :: Char.ofNat 125 :: [] := by
  decide

theorem formatTemplate_subj (s c r : Str) :
    formatTemplate s c (subjVar ++ r) = s ++ formatTemplate s c r := by
  show formatTemplateF (subjVar ++ r).length s c (subjVar ++ r) = _
  have hlen : (subjVar ++ r).length = r.length + 9 := by
    rw [List.length_append]; rw [subjVar_cons]; simp; omega
  rw [hlen]
  rw [subjVar_cons]
  show formatTemplateF (r.length + 9) s c
      (Char.ofNat 123 :: 's' :: 'u' :: 'b' :: 'j' :: 'e' :: 'c' :: 't' :: Char.ofNat 125 :: r) = _
  rw [formatTemplateF]
  rw [if_pos (by rw [subjVar_cons]; simp [ List.isPrefixOf_cons₂])]
  have hdrop :
      (Char.ofNat 123 :: 's' :: 'u' :: 'b' :: 'j' :: 'e' :: 'c' :: 't' :: Char.ofNat 125 :: r).drop 9 = r := rfl
  rw [hdrop]
  rw [formatTemplateF_congr s c (r.length + 8) r.length r (by omega) (by omega)]
  rfl

theorem subjVar_not_pre_ctx (r : Str) : subjVar.isPrefixOf (ctxVar ++ r) = false := by
  rw [subjVar_cons, ctxVar_cons]
  simp [ List.isPrefixOf_cons₂]

theorem formatTemplate_ctx (s c r : Str) :
    formatTemplate s c (ctxVar ++ r) = c ++ formatTemplate s c r := by
  show formatTemplateF (ctxVar ++ r).length s c (ctxVar ++ r) = _
  have hlen : (ctxVar ++ r).length = r.length + 9 := by
    rw [List.length_append]; rw [ctxVar_cons]; simp; omega
  rw [hlen]
  rw [ctxVar_cons]
  show formatTemplateF (r.length + 9) s c
      (Char.ofNat 123 :: 'c' :: 'o' :: 'n' :: 't' :: 'e' :: 'x' :: 't' :: Char.ofNat 125 :: r) = _
  rw [formatTemplateF]
  rw [if_neg (by have := subjVar_not_pre_ctx r; rw [ctxVar_cons] at this; simp_all)]
  rw [if_pos (by rw [ctxVar_cons]; simp [ List.isPrefixOf_cons₂])]
  have hdrop :
      (Char.ofNat 123 :: 'c' :: 'o' :: 'n' :: 't' :: 'e' :: 'x' :: 't' :: Char.ofNat 125 :: r).drop 9 = r := rfl
  rw [hdrop]
  rw [formatTemplateF_congr s c (r.length + 8) r.length r (by omega) (by omega)]
  rfl

theorem head_of_isPrefixOf_subjVar {ch : Char} {l : Str}
    (h : subjVar.isPrefixOf (ch :: l) = true) : ch = Char.ofNat 123 := by
  rw [subjVar_cons] at h
  rw [ List.isPrefixOf_cons₂] at h
  simp at h
  exact h.1.symm

theorem head_of_isPrefixOf_ctxVar {ch : Char} {l : Str}
    (h : ctxVar.isPrefixOf (ch :: l) = true) : ch = Char.ofNat 123 := by
  rw [ctxVar_cons] at h
  rw [ List.isPrefixOf_cons₂] at h
  simp at h
  exact h.1.symm

theorem formatTemplate_cons_ne (s c : Str) (ch : Char) (rest : Str) (h : ch ≠ Char.ofNat 123) :
    formatTemplate s c (ch :: rest) = ch :: formatTemplate s c rest := by
  show formatTemplateF (rest.length + 1) s c (ch :: rest) = _
  rw [formatTemplateF]
  rw [if_neg (fun hp => h (head_of_isPrefixOf_subjVar hp))]
  rw [if_neg (fun hp => h (head_of_isPrefixOf_ctxVar hp))]
  rfl

theorem formatTemplate_lit (a : Str) (s c : Str) : ∀ (r : Str), (Char.ofNat 123) ∉ a →
    formatTemplate s c (a ++ r) = a ++ formatTemplate s c r := by
  induction a with
  | nil => intro r _; rfl
  | cons ch tl ih =>
    intro r hmem
    rw [List.cons_append, formatTemplate_cons_ne]
    · rw [ih r (fun hx => hmem (List.mem_cons_of_mem _ hx))]
      simp
    · intro hx; exact hmem (hx ▸ List.mem_cons_self _ _)

theorem formatTemplate_all_lit (a : Str) (s c : Str) (h : (Char.ofNat 123) ∉ a) :
    formatTemplate s c a = a := by
  have hx := formatTemplate_lit a s c [] h
  rw [List.append_nil] at hx
  rw [hx]
  rw [show formatTemplate s c [] = [] from rfl]
  simp

/- ### URL percent-encoding (`urllib.parse.quote`, default `safe="/"`) -/

/-- UTF-8 encoding of one character, as byte values. -/
def utf8EncodeChar (c : Char) : List Nat :=
  let n := c.toNat
  if n < 128 then [n]
  else if n < 2048 then [192 + n / 64, 128 + n % 64]
  else if n < 65536 then [224 + n / 4096, 128 + (n / 64) % 64, 128 + n % 64]
  else [240 + n / 262144, 128 + (n / 4096) % 64, 128 + (n / 64) % 64, 128 + n % 64]

/-- UTF-8 encoding of a text, as byte values. -/
def strUtf8 (s : Str) : List Nat := s.flatMap utf8EncodeChar

/-- Bytes `quote` leaves unescaped: unreserved characters plus `/`. -/
def urlSafe (b : Nat) : Bool :=
  (65 ≤ b && b ≤ 90) || (97 ≤ b && b ≤ 122) || (48 ≤ b && b ≤ 57)
    || b == 45 || b == 46 || b == 95 || b == 126 || b == 47

/-- Uppercase hex digit of a value below 16. -/
def hexUpper (n : Nat) : Char := if n < 10 then Char.ofNat (48 + n) else Char.ofNat (55 + n)

/-- Percent-encoding of one byte. -/
def pctEncodeByte (b : Nat) : Str :=
  if urlSafe b then [Char.ofNat b] else ['%', hexUpper (b / 16), hexUpper (b % 16)]

/-- Model of `urllib.parse.quote(s)`: UTF-8 encode, then percent-encode every
byte outside the safe set (main.py lines 114 and 132). -/
def pyQuote (s : Str) : Str := (strUtf8 s).flatMap pctEncodeByte

/-- Value of an uppercase hex digit. -/
def hexVal (c : Char) : Nat := if c.toNat < 58 then c.toNat - 48 else c.toNat - 55

/-- URL percent-decoding back to byte values (what the spec calls decoding). -/
def percentDecode : Str → List Nat
| [] => []
| c :: rest =>
  if c = '%' then
    match rest with
    | h1 :: h2 :: rest2 => (hexVal h1 * 16 + hexVal h2) :: percentDecode rest2
    | [h1] => [c.toNat, h1.toNat]
    | [] => [c.toNat]
  else c.toNat :: percentDecode rest

theorem charToNat_ofNat {n : Nat} (h : n.isValidChar) : (Char.ofNat n).toNat = n := by
  simp [Char.ofNat, dif_pos h, Char.ofNatAux, Char.toNat, UInt32.toNat]

theorem char_toNat_lt (c : Char) : c.toNat < 1114112 := by
  have h := c.valid
  simp [Char.toNat]
  rcases h with h | h
  · omega
  · omega

theorem utf8EncodeChar_lt (c : Char) : ∀ b ∈ utf8EncodeChar c, b < 256 := by
  intro b hb
  have hv := char_toNat_lt c
  simp only [utf8EncodeChar] at hb
  split at hb
  · simp at hb; omega
  · split at hb
    · simp at hb
      rcases hb with hb | hb <;> omega
    · split at hb
      · simp at hb
        rcases hb with hb | hb | hb <;> omega
      · simp at hb
        rcases hb with hb | hb | hb | hb <;> omega

theorem strUtf8_lt (s : Str) : ∀ b ∈ strUtf8 s, b < 256 := by
  intro b hb
  unfold strUtf8 at hb
  rw [List.mem_flatMap] at hb
  obtain ⟨c, _, hbc⟩ := hb
  exact utf8EncodeChar_lt c b hbc

theorem urlSafe_bounds {b : Nat} (h : urlSafe b = true) : b < 128 ∧ b ≠ 37 := by
  unfold urlSafe at h
  simp at h
  omega

theorem hexVal_hexUpper {n : Nat} (h : n < 16) : hexVal (hexUpper n) = n := by
  unfold hexUpper hexVal
  by_cases h10 : n < 10
  · rw [if_pos h10]
    rw [charToNat_ofNat (Or.inl (by omega))]
    rw [if_pos (by omega)]
    omega
  · rw [if_neg h10]
    rw [charToNat_ofNat (Or.inl (by omega))]
    rw [if_neg (by omega)]
    omega

theorem ofNat_ne_pct {b : Nat} (hb : b < 128) (hne : b ≠ 37) : Char.ofNat b ≠ '%' := by
  intro h
  have h37 : (Char.ofNat b).toNat = 37 := by rw [h]; decide
  rw [charToNat_ofNat (Or.inl (by omega))] at h37
  omega

theorem percentDecode_cons_ne (c : Char) (rest : Str) (h : c ≠ '%') :
    percentDecode (c :: rest) = c.toNat :: percentDecode rest := by
  rw [percentDecode.eq_def]
  simp [h]

theorem percentDecode_pct (h1 h2 : Char) (rest : Str) :
    percentDecode ('%' :: h1 :: h2 :: rest) = (hexVal h1 * 16 + hexVal h2) :: percentDecode rest := by
  rw [percentDecode.eq_def]
  simp

theorem percentDecode_encode : ∀ bs : List Nat, (∀ b ∈ bs, b < 256) →
    percentDecode (bs.flatMap pctEncodeByte) = bs := by
  intro bs
  induction bs with
  | nil => intro _; rfl
  | cons b tl ih =>
    intro hmem
    have hb : b < 256 := hmem b (List.mem_cons_self _ _)
    have hrest := ih (fun x hx => hmem x (List.mem_cons_of_mem _ hx))
    rw [List.flatMap_cons]
    by_cases hs : urlSafe b = true
    · have he : pctEncodeByte b = [Char.ofNat b] := by simp [pctEncodeByte, hs]
      rw [he]
      obtain ⟨hlt, hne⟩ := urlSafe_bounds hs
      rw [List.cons_append, List.nil_append]
      rw [percentDecode_cons_ne _ _ (ofNat_ne_pct hlt hne)]
      rw [charToNat_ofNat (Or.inl (by omega))]
      rw [hrest]
    · have he : pctEncodeByte b = ['%', hexUpper (b / 16), hexUpper (b % 16)] := by
        simp [pctEncodeByte, hs]
      rw [he]
      rw [List.cons_append, List.cons_append, List.cons_append, List.nil_append]
      rw [percentDecode_pct]
      rw [hexVal_hexUpper (by omega), hexVal_hexUpper (by omega)]
      rw [hrest]
      have hdm : b / 16 * 16 + b % 16 = b := by omega
      rw [hdm]

/-- The `quote` model round-trips: percent-decoding the encoded text recovers exactly
the UTF-8 bytes of the original. -/
theorem pyQuote_decode (s : Str) : percentDecode (pyQuote s) = strUtf8 s :=
  percentDecode_encode _ (strUtf8_lt s)

/- ### Image-tag expansion (`process_text_images`, main.py lines 107-118) -/

/-- The fixed opening of an image tag matched by the regex `\[IMAGE: (.*?)\]`. -/
def openTag : Str := ("[IMAGE: ").data

/-- The non-greedy group `(.*?)` followed by `]`: take characters up to the
first `]`; fail if a newline (which `.` cannot match) comes first. -/
def takeDesc : Str → Option (Str × Str)
| [] => none
| c :: rest =>
  if c = ']' then some ([], rest)
  else if c = '\n' then none
  else match takeDesc rest with
       | some (d, r) => some (c :: d, r)
       | none => none

/-- The Pollinations prompt built from a tag description (line 114). -/
def image_prompt (desc : Str) : Str :=
  ("educational vector diagram of ").data ++ desc
    ++ (", highly detailed, sharp focus, 4k resolution, svg style, white background, clean lines, minimal text").data

/-- The markdown replacement of one `[IMAGE: desc]` tag (lines 114-116). -/
def image_markdown (desc : Str) : Str :=
  ("\n\n![").data ++ desc ++ ("](https://image.pollinations.ai/prompt/").data
    ++ pyQuote (image_prompt desc) ++ ("?nologo=true&width=1024&height=600)\n\n").data

/-- One fuel step of the `re.sub` scan: at a position starting an `[IMAGE: `
prefix with a closed description, emit the replacement and continue after the
tag; at a prefix without a closing `]` before a newline the regex fails there,
and since none of the next seven characters can start a tag the scan resumes
after them; otherwise copy one character.  Fuel pays for the non-structural
jumps; `process_text_images` supplies enough for the whole text. -/
def ptiF : Nat → Str → Str
| 0, l => l
| _ + 1, [] => []
| f + 1, c :: cs =>
  if openTag.isPrefixOf (c :: cs) then
    match takeDesc ((c :: cs).drop 8) with
    | some (d, r) => image_markdown d ++ ptiF f r
    | none => openTag ++ ptiF f ((c :: cs).drop 8)
  else c :: ptiF f cs

/-- Model of `process_text_images` (lines 107-118). -/
def process_text_images (text : Str) : Str := ptiF text.length text

/-- Model of a search for `\[IMAGE: (.*?)\]` anywhere in the text: the text
"contains an image tag" exactly when the regex matches somewhere. -/
def hasImageTag : Str → Bool
| [] => false
| c :: cs => (openTag.isPrefixOf (c :: cs) && (takeDesc (cs.drop 7)).isSome) || hasImageTag cs

/-- The literal text of one tag. -/
def tagLit (desc : Str) : Str := openTag ++ desc ++ [']']

/-- A text interleaving plain segments with image tags. -/
def taggedText : List (Str × Str) → Str → Str
| [], final => final
| (seg, d) :: rest, final => seg ++ tagLit d ++ taggedText rest final

/-- The same interleaving with every tag replaced by its markdown image. -/
def replacedText : List (Str × Str) → Str → Str
| [], final => final
| (seg, d) :: rest, final => seg ++ image_markdown d ++ replacedText rest final

theorem takeDesc_length : ∀ l d r, takeDesc l = some (d, r) → r.length < l.length := by
  intro l
  induction l with
  | nil => intro d r h; simp [takeDesc] at h
  | cons c cs ih =>
    intro d r h
    rw [takeDesc] at h
    by_cases hc : c = ']'
    · rw [if_pos hc] at h
      injection h with h
      injection h with h1 h2
      subst h2; simp
    · rw [if_neg hc] at h
      by_cases hn : c = '\n'
      · rw [if_pos hn] at h; cases h
      · rw [if_neg hn] at h
        match hx : takeDesc cs with
        | some (d0, r0) =>
          rw [hx] at h
          injection h with h
          injection h with h1 h2
          subst h2
          have := ih d0 r0 hx
          simp
          omega
        | none => rw [hx] at h; cases h

theorem takeDesc_closed : ∀ d post, ']' ∉ d → '\n' ∉ d →
    takeDesc (d ++ ']' :: post) = some (d, post) := by
  intro d
  induction d with
  | nil => intro post _ _; simp [takeDesc]
  | cons c cs ih =>
    intro post hrb hnl
    have hc : c ≠ ']' := by
      intro h; apply hrb; rw [h]; exact List.mem_cons_self _ _
    have hn : c ≠ '\n' := by
      intro h; apply hnl; rw [h]; exact List.mem_cons_self _ _
    rw [List.cons_append, takeDesc, if_neg hc, if_neg hn]
    rw [ih post (fun h => hrb (List.mem_cons_of_mem _ h)) (fun h => hnl (List.mem_cons_of_mem _ h))]

theorem ptiF_congr : ∀ f1 f2 l, l.length ≤ f1 → l.length ≤ f2 →
    ptiF f1 l = ptiF f2 l := by
  intro f1
  induction f1 with
  | zero =>
    intro f2 l h1 _
    have : l = [] := List.length_eq_zero.mp (Nat.le_zero.mp h1)
    subst this
    cases f2 <;> rfl
  | succ f ih =>
    intro f2 l h1 h2
    match l with
    | [] => cases f2 <;> rfl
    | c :: cs =>
      match f2 with
      | 0 => simp at h2
      | g + 1 =>
        rw [ptiF, ptiF]
        simp only [List.length_cons] at h1 h2
        by_cases hp : openTag.isPrefixOf (c :: cs)
        · rw [if_pos hp, if_pos hp]
          match hx : takeDesc ((c :: cs).drop 8) with
          | some (d, r) =>
            have hr := takeDesc_length _ _ _ hx
            simp only [List.length_drop, List.length_cons] at hr
            show image_markdown d ++ ptiF f r = image_markdown d ++ ptiF g r
            rw [ih g r (by omega) (by omega)]
          | none =>
            have hlf : ((c :: cs).drop 8).length ≤ f := by
              simp only [List.length_drop, List.length_cons]; omega
            have h2' : ((c :: cs).drop 8).length ≤ g := by
              simp only [List.length_drop, List.length_cons]; omega
            show openTag ++ ptiF f ((c :: cs).drop 8) = openTag ++ ptiF g ((c :: cs).drop 8)
            rw [ih g _ hlf h2']
        · rw [if_neg hp, if_neg hp]
          rw [ih g cs (by omega) (by omega)]

theorem openTag_cons :
    openTag = '[' :: 'I' :: 'M' :: 'A' :: 'G' :: 'E' :: ':' :: ' ' :: [] := by decide

theorem head_of_isPrefixOf_openTag {c : Char} {l : Str}
    (h : openTag.isPrefixOf (c :: l) = true) : c = '[' := by
  rw [openTag_cons] at h
  rw [ List.isPrefixOf_cons₂] at h
  simp at h
  exact h.1.symm

theorem pti_cons_not_pre (c : Char) (cs : Str) (h : ¬ openTag.isPrefixOf (c :: cs) = true) :
    process_text_images (c :: cs) = c :: process_text_images cs := by
  show ptiF (cs.length + 1) (c :: cs) = _
  rw [ptiF, if_neg h]
  rfl

theorem pti_cons_ne (c : Char) (cs : Str) (h : c ≠ '[') :
    process_text_images (c :: cs) = c :: process_text_images cs :=
  pti_cons_not_pre c cs (fun hp => h (head_of_isPrefixOf_openTag hp))

theorem pti_open_some (rest d r : Str) (h : takeDesc rest = some (d, r)) :
    process_text_images (openTag ++ rest) = image_markdown d ++ process_text_images r := by
  show ptiF (openTag ++ rest).length (openTag ++ rest) = _
  have hlen : (openTag ++ rest).length = rest.length + 8 := by
    rw [List.length_append]; rw [openTag_cons]; simp; omega
  rw [hlen, openTag_cons]
  show ptiF (rest.length + 8) ('[' :: 'I' :: 'M' :: 'A' :: 'G' :: 'E' :: ':' :: ' ' :: rest) = _
  rw [ptiF]
  rw [if_pos (by rw [openTag_cons]; simp [ List.isPrefixOf_cons₂])]
  have hdrop : ('[' :: 'I' :: 'M' :: 'A' :: 'G' :: 'E' :: ':' :: ' ' :: rest).drop 8 = rest := rfl
  rw [hdrop, h]
  have hr := takeDesc_length _ _ _ h
  show image_markdown d ++ ptiF (rest.length + 7) r = _
  rw [ptiF_congr (rest.length + 7) r.length r (by omega) (by omega)]
  rfl

theorem pti_open_none (rest : Str) (h : takeDesc rest = none) :
    process_text_images (openTag ++ rest) = openTag ++ process_text_images rest := by
  show ptiF (openTag ++ rest).length (openTag ++ rest) = _
  have hlen : (openTag ++ rest).length = rest.length + 8 := by
    rw [List.length_append]; rw [openTag_cons]; simp; omega
  rw [hlen, openTag_cons]
  show ptiF (rest.length + 8) ('[' :: 'I' :: 'M' :: 'A' :: 'G' :: 'E' :: ':' :: ' ' :: rest) = _
  rw [ptiF]
  rw [if_pos (by rw [openTag_cons]; simp [ List.isPrefixOf_cons₂])]
  have hdrop : ('[' :: 'I' :: 'M' :: 'A' :: 'G' :: 'E' :: ':' :: ' ' :: rest).drop 8 = rest := rfl
  rw [hdrop, h]
  show openTag ++ ptiF (rest.length + 7) rest = _
  rw [ptiF_congr (rest.length + 7) rest.length rest (by omega) (by omega)]
  rw [openTag_cons]
  rfl

theorem pti_lit (seg : Str) : ∀ r, '[' ∉ seg →
    process_text_images (seg ++ r) = seg ++ process_text_images r := by
  induction seg with
  | nil => intro r _; rfl
  | cons c cs ih =>
    intro r hmem
    rw [List.cons_append]
    rw [pti_cons_ne c _ (fun h => hmem (h ▸ List.mem_cons_self _ _))]
    rw [ih r (fun h => hmem (List.mem_cons_of_mem _ h))]
    simp

theorem hasImageTag_cons_or (c : Char) (cs : Str) :
    hasImageTag (c :: cs) =
      ((openTag.isPrefixOf (c :: cs) && (takeDesc (cs.drop 7)).isSome) || hasImageTag cs) := rfl

theorem hasImageTag_tail {c : Char} {cs : Str} (h : hasImageTag (c :: cs) = false) :
    hasImageTag cs = false := by
  rw [hasImageTag_cons_or] at h
  simp at h
  exact h.2

theorem hasImageTag_drop {l : Str} (h : hasImageTag l = false) :
    ∀ k, hasImageTag (l.drop k) = false := by
  induction l with
  | nil => intro k; simp [hasImageTag]
  | cons c cs ih =>
    intro k
    match k with
    | 0 => exact h
    | k + 1 =>
      rw [List.drop_succ_cons]
      exact ih (hasImageTag_tail h) k

theorem pti_no_tag : ∀ n (text : Str), text.length ≤ n → hasImageTag text = false →
    process_text_images text = text := by
  intro n
  induction n with
  | zero =>
    intro text hl _
    have : text = [] := List.length_eq_zero.mp (Nat.le_zero.mp hl)
    subst this; rfl
  | succ n ih =>
    intro text hl htag
    match text with
    | [] => rfl
    | c :: cs =>
      rw [hasImageTag_cons_or] at htag
      simp only [Bool.or_eq_false_iff, Bool.and_eq_false_iff] at htag
      obtain ⟨h1, h2⟩ := htag
      by_cases hp : openTag.isPrefixOf (c :: cs) = true
      · have hds : takeDesc (cs.drop 7) = none := by
          rcases h1 with h1 | h1
          · rw [hp] at h1; cases h1
          · cases hx : takeDesc (cs.drop 7) with
            | none => rfl
            | some v => rw [hx] at h1; simp at h1
        have hpre : openTag <+: (c :: cs) := List.isPrefixOf_iff_prefix.mp hp
        obtain ⟨rest, hrest⟩ := hpre
        have hdrop : rest = (c :: cs).drop 8 := by
          have := congrArg (List.drop 8) hrest
          rw [List.drop_left' (by rw [openTag_cons]; rfl)] at this
          exact this
        have hrest7 : (c :: cs).drop 8 = cs.drop 7 := by rw [List.drop_succ_cons]
        rw [← hrest]
        rw [pti_open_none rest (by rw [hdrop, hrest7]; exact hds)]
        have hlen : rest.length + 8 = (c :: cs).length := by
          rw [← hrest, List.length_append]; rw [openTag_cons]; simp; omega
        simp only [List.length_cons] at hlen hl
        rw [ih rest (by omega) (by rw [hdrop, hrest7]; exact hasImageTag_drop h2 7)]
      · rw [pti_cons_not_pre c cs hp]
        simp only [List.length_cons] at hl
        rw [ih cs (by omega) h2]

theorem hasImageTag_of_no_bracket : ∀ l : Str, '[' ∉ l → hasImageTag l = false := by
  intro l
  induction l with
  | nil => intro _; rfl
  | cons c cs ih =>
    intro hmem
    rw [hasImageTag_cons_or]
    have hc : c ≠ '[' := by
      intro h; apply hmem; rw [h]; exact List.mem_cons_self _ _
    have hp : openTag.isPrefixOf (c :: cs) = false := by
      cases hx : openTag.isPrefixOf (c :: cs) with
      | false => rfl
      | true => exact absurd (head_of_isPrefixOf_openTag hx) hc
    rw [hp, ih (fun h => hmem (List.mem_cons_of_mem _ h))]
    rfl

theorem pti_step (seg d post : Str) (hseg : '[' ∉ seg) (hnl : '\n' ∉ d) (hrb : ']' ∉ d) :
    process_text_images (seg ++ tagLit d ++ post)
      = seg ++ image_markdown d ++ process_text_images post := by
  have h1 : seg ++ tagLit d ++ post = seg ++ (openTag ++ (d ++ ']' :: post)) := by
    unfold tagLit
    simp [List.append_assoc]
  rw [h1]
  rw [pti_lit seg _ hseg]
  rw [pti_open_some (d ++ ']' :: post) d post (takeDesc_closed d post hrb hnl)]
  simp [List.append_assoc]

theorem pti_tagged : ∀ (ps : List (Str × Str)) (final : Str),
    (∀ p ∈ ps, '[' ∉ p.1 ∧ '\n' ∉ p.2 ∧ ']' ∉ p.2) → '[' ∉ final →
    process_text_images (taggedText ps final) = replacedText ps final := by
  intro ps
  induction ps with
  | nil =>
    intro final _ hfin
    exact pti_no_tag (taggedText [] final).length _ le_rfl (hasImageTag_of_no_bracket final hfin)
  | cons p tl ih =>
    intro final hps hfin
    obtain ⟨seg, d⟩ := p
    have hp := hps (seg, d) (List.mem_cons_self _ _)
    rw [taggedText, replacedText]
    rw [pti_step seg d (taggedText tl final) hp.1 hp.2.1 hp.2.2]
    rw [ih final (fun q hq => hps q (List.mem_cons_of_mem _ hq)) hfin]

/- ### WhatsApp cleanup (`clean_for_whatsapp`, main.py lines 62-66) -/

/-- Model of `str.replace("**", "*")` in Python: left-to-right, non-overlapping. -/
def replaceStarStar : Str → Str
| [] => []
| [c] => [c]
| c :: c2 :: rest =>
  if c = '*' ∧ c2 = '*' then '*' :: replaceStarStar rest
  else c :: replaceStarStar (c2 :: rest)

/-- Code points matched by the Python regex class `\s` (and stripped by `str.strip()`). -/
def pySpaceCodes : List Nat :=
  [9, 10, 11, 12, 13, 28, 29, 30, 31, 32, 133, 160, 5760,
   8192, 8193, 8194, 8195, 8196, 8197, 8198, 8199, 8200, 8201, 8202,
   8232, 8233, 8239, 8287, 12288]

/-- Whitespace test used by the `\s*` of the heading regex and by `strip()`. -/
def isPySpace (c : Char) : Bool := pySpaceCodes.contains c.toNat

/-- One fuel step of the heading rewrite `re.sub` with pattern `#+\s*(.*)` and
replacement `*\1*`: a match starts at
each unconsumed `#`; `#+` greedily eats the hash run, `\s*` the following
whitespace (newlines included), `(.*)` the rest of the line, which is wrapped
in single stars; scanning resumes at the untouched line break. -/
def hashSubF : Nat → Str → Str
| 0, l => l
| _ + 1, [] => []
| f + 1, c :: cs =>
  if c = '#' then
    '*' :: ((((cs.dropWhile (fun x => x = '#')).dropWhile isPySpace).takeWhile (fun x => x ≠ '\n'))
      ++ '*' :: hashSubF f (((cs.dropWhile (fun x => x = '#')).dropWhile isPySpace).dropWhile (fun x => x ≠ '\n')))
  else c :: hashSubF f cs

/-- The heading-rewrite pass (line 64). -/
def hashSub (t : Str) : Str := hashSubF t.length t

/-- Trailing-whitespace removal half of `str.strip()`. -/
def pyStripRight : Str → Str
| [] => []
| c :: cs =>
  if (pyStripRight cs).isEmpty && isPySpace c then [] else c :: pyStripRight cs

/-- Model of `text.strip()`. -/
def pyStrip (t : Str) : Str := pyStripRight (t.dropWhile isPySpace)

/-- Model of `clean_for_whatsapp` (lines 62-66): collapse `**` to `*`, rewrite
headings, delete every `$`, strip surrounding whitespace. -/
def clean_for_whatsapp (text : Str) : Str :=
  pyStrip ((hashSub (replaceStarStar text)).filter (fun c => c ≠ '$'))

/-- Adjacent double-star detector (residual `**` emphasis). -/
def hasTwoStars : Str → Bool
| c :: c2 :: rest => (c == '*' && c2 == '*') || hasTwoStars (c2 :: rest)
| _ => false

theorem dropWhile_len_le (p : Char → Bool) (l : Str) : (l.dropWhile p).length ≤ l.length :=
  (List.dropWhile_suffix p).length_le

theorem hashSubF_congr : ∀ f1 f2 l, l.length ≤ f1 → l.length ≤ f2 →
    hashSubF f1 l = hashSubF f2 l := by
  intro f1
  induction f1 with
  | zero =>
    intro f2 l h1 _
    have : l = [] := List.length_eq_zero.mp (Nat.le_zero.mp h1)
    subst this
    cases f2 <;> rfl
  | succ f ih =>
    intro f2 l h1 h2
    match l with
    | [] => cases f2 <;> rfl
    | c :: cs =>
      match f2 with
      | 0 => simp at h2
      | g + 1 =>
        rw [hashSubF, hashSubF]
        simp only [List.length_cons] at h1 h2
        by_cases hc : c = '#'
        · rw [if_pos hc, if_pos hc]
          have hlen : (((cs.dropWhile (fun x => x = '#')).dropWhile isPySpace).dropWhile
              (fun x => x ≠ '\n')).length ≤ cs.length :=
            le_trans (dropWhile_len_le _ _)
              (le_trans (dropWhile_len_le _ _) (dropWhile_len_le _ _))
          rw [ih g _ (by omega) (by omega)]
        · rw [if_neg hc, if_neg hc]
          rw [ih g cs (by omega) (by omega)]

theorem hashSubF_no_hash : ∀ f (t : Str), t.length ≤ f → '#' ∉ t → hashSubF f t = t := by
  intro f
  induction f with
  | zero =>
    intro t h1 _
    have : t = [] := List.length_eq_zero.mp (Nat.le_zero.mp h1)
    subst this; rfl
  | succ f ih =>
    intro t h1 hmem
    match t with
    | [] => rfl
    | c :: cs =>
      have hc : c ≠ '#' := by
        intro h; apply hmem; rw [h]; exact List.mem_cons_self _ _
      rw [hashSubF, if_neg hc]
      simp only [List.length_cons] at h1
      rw [ih cs (by omega) (fun h => hmem (List.mem_cons_of_mem _ h))]

theorem hashSub_no_hash {t : Str} (h : '#' ∉ t) : hashSub t = t :=
  hashSubF_no_hash t.length t le_rfl h

theorem hasTwoStars_tail {c : Char} {l : Str} (h : hasTwoStars (c :: l) = false) :
    hasTwoStars l = false := by
  match l with
  | [] => rfl
  | c2 :: rest =>
    rw [hasTwoStars] at h
    simp at h
    exact h.2

theorem hasTwoStars_cons_of {c : Char} {l : Str} (h : hasTwoStars l = true) :
    hasTwoStars (c :: l) = true := by
  match l with
  | [] => simp [hasTwoStars] at h
  | c2 :: rest =>
    rw [hasTwoStars, h]
    simp

theorem replaceStarStar_no_two : ∀ t, hasTwoStars t = false → replaceStarStar t = t := by
  intro t
  induction t using replaceStarStar.induct with
  | case1 => intro _; rfl
  | case2 c => intro _; rfl
  | case3 c c2 rest hstar ih =>
    intro h
    rw [hasTwoStars] at h
    simp at h
    exact absurd hstar.2 (h.1 hstar.1)
  | case4 c c2 rest hstar ih =>
    intro h
    rw [replaceStarStar, if_neg hstar]
    rw [ih (hasTwoStars_tail h)]

theorem hasTwoStars_filter {t : Str} (h : hasTwoStars t = true) :
    hasTwoStars (t.filter (fun c => c ≠ '$')) = true := by
  induction t with
  | nil => simp [hasTwoStars] at h
  | cons c cs ih =>
    match cs with
    | [] => simp [hasTwoStars] at h
    | c2 :: rest =>
      rw [hasTwoStars] at h
      simp only [Bool.or_eq_true] at h
      rcases h with h | h
      · simp only [beq_iff_eq, Bool.and_eq_true] at h
        obtain ⟨hc, hc2⟩ := h
        subst hc; subst hc2
        rw [List.filter_cons, List.filter_cons]
        simp only [decide_eq_true_eq]
        rw [if_pos (by decide), if_pos (by decide)]
        rw [hasTwoStars]
        simp
      · have := ih h
        rw [List.filter_cons]
        split
        · exact hasTwoStars_cons_of this
        · exact this

theorem hasTwoStars_dropWhile (p : Char → Bool) : ∀ l, hasTwoStars l = false →
    hasTwoStars (l.dropWhile p) = false := by
  intro l
  induction l with
  | nil => intro h; simpa using h
  | cons c cs ih =>
    intro h
    rw [List.dropWhile_cons]
    split
    · exact ih (hasTwoStars_tail h)
    · exact h

theorem hasTwoStars_of_append : ∀ (a b : Str), hasTwoStars (a ++ b) = false →
    hasTwoStars a = false := by
  intro a
  induction a with
  | nil => intro b _; rfl
  | cons c cs ih =>
    intro b h
    match cs with
    | [] => rfl
    | c2 :: rest =>
      rw [hasTwoStars]
      rw [List.cons_append, List.cons_append, hasTwoStars] at h
      simp only [Bool.or_eq_false_iff] at h ⊢
      refine ⟨h.1, ?_⟩
      have := ih b (by rw [List.cons_append]; exact h.2)
      exact this

theorem pyStripRight_front : ∀ l : Str, pyStripRight l <+: l := by
  intro l
  induction l with
  | nil => exact ⟨[], rfl⟩
  | cons c cs ih =>
    rw [pyStripRight]
    split
    · exact ⟨c :: cs, rfl⟩
    · obtain ⟨t, ht⟩ := ih
      exact ⟨t, by rw [List.cons_append, ht]⟩

theorem mem_of_psr {a : Char} {l : Str} (h : a ∈ pyStripRight l) : a ∈ l := by
  obtain ⟨t, ht⟩ := pyStripRight_front l
  have : a ∈ pyStripRight l ++ t := List.mem_append.mpr (Or.inl h)
  rw [ht] at this
  exact this

theorem mem_of_dropWhile {a : Char} {p : Char → Bool} {l : Str} (h : a ∈ l.dropWhile p) :
    a ∈ l := by
  have hsuf : l.dropWhile p <:+ l := List.dropWhile_suffix p
  obtain ⟨t, ht⟩ := hsuf
  have : a ∈ t ++ l.dropWhile p := List.mem_append.mpr (Or.inr h)
  rw [ht] at this
  exact this

theorem mem_of_pyStrip {a : Char} {l : Str} (h : a ∈ pyStrip l) : a ∈ l :=
  mem_of_dropWhile (mem_of_psr h)

theorem dropWhile_head_false {p : Char → Bool} : ∀ (l : Str) c t, l.dropWhile p = c :: t →
    p c = false := by
  intro l
  induction l with
  | nil => intro c t h; simp at h
  | cons x xs ih =>
    intro c t h
    rw [List.dropWhile_cons] at h
    split at h
    · exact ih c t h
    · injection h with h1 _
      subst h1
      simp_all

theorem pyStripRight_idem : ∀ l : Str, pyStripRight (pyStripRight l) = pyStripRight l := by
  intro l
  induction l with
  | nil => rfl
  | cons c cs ih =>
    rw [pyStripRight]
    split
    · rfl
    · rw [pyStripRight, ih]
      next hcond =>
      rw [if_neg hcond]

theorem pyStrip_idem (l : Str) : pyStrip (pyStrip l) = pyStrip l := by
  have key : (pyStripRight (l.dropWhile isPySpace)).dropWhile isPySpace
      = pyStripRight (l.dropWhile isPySpace) := by
    cases hy : pyStripRight (l.dropWhile isPySpace) with
    | nil => rfl
    | cons c t =>
      have hc : isPySpace c = false := by
        obtain ⟨u, hu⟩ := pyStripRight_front (l.dropWhile isPySpace)
        rw [hy] at hu
        exact dropWhile_head_false l c (t ++ u) (by rw [← hu]; simp)
      rw [List.dropWhile_cons, if_neg (by simp [hc])]
  show pyStripRight ((pyStripRight (l.dropWhile isPySpace)).dropWhile isPySpace) = pyStrip l
  rw [key]
  show pyStripRight (pyStripRight (l.dropWhile isPySpace)) = pyStripRight (l.dropWhile isPySpace)
  exact pyStripRight_idem _

theorem hasTwoStars_psr {l : Str} (h : hasTwoStars l = false) :
    hasTwoStars (pyStripRight l) = false := by
  obtain ⟨t, ht⟩ := pyStripRight_front l
  exact hasTwoStars_of_append _ t (by rw [ht]; exact h)

theorem hasTwoStars_pyStrip {l : Str} (h : hasTwoStars l = false) :
    hasTwoStars (pyStrip l) = false :=
  hasTwoStars_psr (hasTwoStars_dropWhile _ _ h)

/- ### Answer orchestrator (`ask_the_brain`, main.py lines 121-207) -/

/-- The fallback illustration URL synthesised from the subject (lines 131-133). -/
def fallback_image_url (subject : Str) : Str :=
  ("https://image.pollinations.ai/prompt/").data
    ++ pyQuote (("Educational vector diagram explaining ").data ++ subject
      ++ (", highly detailed, sharp focus, 8k resolution, svg style, white background, clean lines, high quality, minimal text").data)
    ++ ("?nologo=true&width=1024&height=600").data

/-- The body of the `try` block of `ask_the_brain` (lines 122-203): load the client
bundle, look up context, fill the visual fallback when the context image is
falsy, render the prompt, call the completion client, post-process for the
audience.  An `.error` is an exception escaping the `try` body. -/
def ask_the_brain_body (env : Env) (subject language mode : Str) ( is_whatsapp : Bool) :
    Except PyExc (Str × Str × Option Str) :=
  match env.get_ai_tools with
  | .error e => .error e
  | .ok tools =>
    match get_context subject tools with
    | .error e => .error e
    | .ok (local_context, visual0) =>
      match tools.invoke (formatTemplate subject local_context
          (prompt_template mode language is_whatsapp)) with
      | .error e => .error e
      | .ok ai_reply =>
        .ok ((if is_whatsapp then clean_for_whatsapp ai_reply else process_text_images ai_reply),
          local_context,
          if pyTruthy visual0 then visual0 else some (fallback_image_url subject))

/-- Model of `ask_the_brain` (lines 121-207): the `try` body, with the
`except` clause turning any exception into the degraded triple
`(f"Error: {str(e)}", "Error", None)`. -/
def ask_the_brain (env : Env) (subject language mode : Str) ( is_whatsapp : Bool) :
    Str × Str × Option Str :=
  match ask_the_brain_body env subject language mode is_whatsapp with
  | .ok r => r
  | .error e => (("Error: ").data ++ e.msg, ("Error").data, none)

/-- Model of the `/whatsapp` endpoint (lines 302-314): call the brain with the
default language and mode and WhatsApp formatting, then build the TwiML
envelope, adding a `Media` element only when the image is truthy. -/
def whatsapp_reply (env : Env) (Body : Str) : Str :=
  ("<Response><Message>").data
    ++ ("<Body>").data ++ (ask_the_brain env Body (("english").data) (("standard").data) true).1
    ++ ("</Body>").data
    ++ (if pyTruthy (ask_the_brain env Body (("english").data) (("standard").data) true).2.2 then
          ("<Media>").data
            ++ ((ask_the_brain env Body (("english").data) (("standard").data) true).2.2.getD [])
            ++ ("</Media>").data
        else [])
    ++ ("</Message></Response>").data

/- ### The lazy client-bundle initialiser (`get_ai_tools`, main.py lines 27-59)

For the concurrency claim the initialiser is modelled as a small-step system:
each thread entering `get_ai_tools` first executes the `if ai_tools is None`
check, then — when the check saw `None` — the construction-and-assignment block
`ai_tools = {...}`.  The source has no lock around the two steps, so other
threads may interleave between them. -/

/-- Program counter of one thread inside `get_ai_tools`. -/
inductive LoaderPc where
  /-- about to run `if ai_tools is None`. -/
  | checking
  /-- saw `None` and is about to construct and assign the bundle. -/
  | initializing
  /-- returned. -/
  | done
deriving DecidableEq

/-- Shared state: the global `ai_tools` (identified by construction number),
how many bundle constructions have run, and the program counter of every thread. -/
structure LoaderState where
  aiTools : Option Nat
  builds : Nat
  pcs : List LoaderPc
deriving DecidableEq

/-- One atomic step of some thread `i` inside `get_ai_tools`. -/
inductive LoaderStep : LoaderState → LoaderState → Prop where
  /-- Run `if ai_tools is None` with the global still unset: proceed to construct. -/
  | check_miss (s : LoaderState) (i : Nat)
      (h : s.pcs.get? i = some LoaderPc.checking) (hg : s.aiTools = none) :
      LoaderStep s ⟨s.aiTools, s.builds, s.pcs.set i LoaderPc.initializing⟩
  /-- Run `if ai_tools is None` with the global already set: return it. -/
  | check_hit (s : LoaderState) (i : Nat) (t : Nat)
      (h : s.pcs.get? i = some LoaderPc.checking) (hg : s.aiTools = some t) :
      LoaderStep s ⟨s.aiTools, s.builds, s.pcs.set i LoaderPc.done⟩
  /-- construct the clients and assign `ai_tools = {...}`. -/
  | build (s : LoaderState) (i : Nat)
      (h : s.pcs.get? i = some LoaderPc.initializing) :
      LoaderStep s ⟨some s.builds, s.builds + 1, s.pcs.set i LoaderPc.done⟩

/-- Reachability along loader steps. -/
def loaderReach : LoaderState → LoaderState → Prop := Relation.ReflTransGen LoaderStep

/-- Initial state: global unset, no constructions, `n` threads entering. -/
def loaderInit (n : Nat) : LoaderState :=
  ⟨none, 0, List.replicate n LoaderPc.checking⟩

/- ### Claim support: knowledge-lookup helpers -/

/-- Tier 2 produced no result: the general query raised or returned no rows. -/
def tier2_missed (tools : Tools) : Prop :=
  match tools.table_contains_limit cultural_table general_filter 1 with
  | .ok (_ :: _) => False
  | _ => True

theorem get_context_ok (subject : Str) (tools : Tools) :
    ∃ n v, get_context subject tools = Except.ok (n, v) := by
  unfold get_context
  cases h1 : tier1_lookup subject tools with
  | some r =>
    exact ⟨r.1, r.2, rfl⟩
  | none =>
    cases h2 : tools.table_contains_limit cultural_table general_filter 1 with
    | error e => exact ⟨no_context_narrative, none, rfl⟩
    | ok rows =>
      cases rows with
      | nil => exact ⟨no_context_narrative, none, rfl⟩
      | cons row rest => exact ⟨general_narrative row, none, rfl⟩

theorem tier1_lookup_some (subject : Str) (tools : Tools) {qv : Vec} {m : KMatch}
    {rest : List KMatch}
    (h1 : tools.embed_query subject = Except.ok qv)
    (h2 : tools.match_cultural_knowledge qv (0.20 : ℚ) 1 = Except.ok (m :: rest)) :
    tier1_lookup subject tools = some (specific_narrative m, m.image_url) := by
  simp only [tier1_lookup, h1, h2]

/-- Claim C2: Knowledge Lookup always returns exactly one context result and
never raises: every oracle outcome yields an `Except.ok`; an exception from
the embedding client or the similarity search makes tier 1 yield nothing; when
tier 1 yields nothing the hit of the general tier is returned, and when that also
misses the fixed improvise narrative with a null image is returned. -/
theorem get_context_never_raises_tiers (subject : Str) (tools : Tools) :
    (∃ narrative image, get_context subject tools = Except.ok (narrative, image))
    ∧ (∀ e, tools.embed_query subject = Except.error e → tier1_lookup subject tools = none)
    ∧ (∀ qv e, tools.embed_query subject = Except.ok qv →
        tools.match_cultural_knowledge qv (0.20 : ℚ) 1 = Except.error e →
        tier1_lookup subject tools = none)
    ∧ (∀ row rest, tier1_lookup subject tools = none →
        tools.table_contains_limit cultural_table general_filter 1 = Except.ok (row :: rest) →
        get_context subject tools = Except.ok (general_narrative row, none))
    ∧ (tier1_lookup subject tools = none → tier2_missed tools →
        get_context subject tools = Except.ok (no_context_narrative, none)) := by
  refine ⟨get_context_ok subject tools, ?_, ?_, ?_, ?_⟩
  · intro e he
    simp only [tier1_lookup, he]
  · intro qv e he hm
    simp only [tier1_lookup, he, hm]
  · intro row rest h1 h2
    unfold get_context
    rw [h1, h2]
  · intro h1 h2
    unfold get_context
    rw [h1]
    unfold tier2_missed at h2
    cases hg : tools.table_contains_limit cultural_table general_filter 1 with
    | error e => rfl
    | ok rows =>
      cases rows with
      | nil => rfl
      | cons row rest => rw [hg] at h2; exact h2.elim

/-- Claim C3: whenever the similarity search returns at least one match (at or
above the threshold it was given), Knowledge Lookup yields the specific tier:
the fixed-format narrative containing the content and region of the match
verbatim, and the stored image URL of the match. -/
theorem get_context_specific_match (subject : Str) (tools : Tools) (qv : Vec)
    (m : KMatch) (rest : List KMatch)
    (h1 : tools.embed_query subject = Except.ok qv)
    (h2 : tools.match_cultural_knowledge qv (0.20 : ℚ) 1 = Except.ok (m :: rest)) :
    get_context subject tools = Except.ok (specific_narrative m, m.image_url)
    ∧ (∃ a b, specific_narrative m = a ++ m.content ++ b)
    ∧ (∃ a b, specific_narrative m = a ++ m.region ++ b) := by
  refine ⟨?_, ?_, ?_⟩
  · unfold get_context
    rw [tier1_lookup_some subject tools h1 h2]
  · exact ⟨("Use this local metaphor: ").data,
      (" (Region: ").data ++ m.region ++ (")").data, by unfold specific_narrative; simp⟩
  · exact ⟨("Use this local metaphor: ").data ++ m.content ++ (" (Region: ").data,
      (")").data, by unfold specific_narrative; simp⟩

/-- Claim C4: the general-fallback tier is consulted only when tier 1 yielded
nothing — on a tier-1 hit the result does not depend on the table query at all
— and when it is consulted with the `topic="General"` containment filter and
limit 1 and finds a row, the result is the general-wisdom narrative containing
the content and region of that row, with a null image URL. -/
theorem get_context_general_fallback (subject : Str) (tools : Tools) :
    (∀ qv m rest gq, tools.embed_query subject = Except.ok qv →
      tools.match_cultural_knowledge qv (0.20 : ℚ) 1 = Except.ok (m :: rest) →
      get_context subject { tools with table_contains_limit := gq }
        = Except.ok (specific_narrative m, m.image_url))
    ∧ (∀ row rest, tier1_lookup subject tools = none →
        tools.table_contains_limit cultural_table general_filter 1 = Except.ok (row :: rest) →
        get_context subject tools = Except.ok (general_narrative row, none)
        ∧ (∃ a b, general_narrative row = a ++ row.content ++ b)
        ∧ (∃ a b, general_narrative row = a ++ row.region ++ b)) := by
  constructor
  · intro qv m rest gq h1 h2
    unfold get_context
    rw [tier1_lookup_some subject { tools with table_contains_limit := gq } h1 h2]
  · intro row rest h1 h2
    refine ⟨?_, ?_, ?_⟩
    · unfold get_context
      rw [h1, h2]
    · exact ⟨("Use this general African wisdom: ").data,
        (" (Region: ").data ++ row.region ++ (")").data, by unfold general_narrative; simp⟩
    · exact ⟨("Use this general African wisdom: ").data ++ row.content ++ (" (Region: ").data,
        (")").data, by unfold general_narrative; simp⟩

/- ### Sample oracles for the witnesses -/

/-- A stored knowledge row with an image URL. -/
def sampleMatch : KMatch :=
  ⟨("Electric current is like water flowing through pipes in the compound").data,
   ("Visual Diagram").data,
   some (("https://example.org/circuit.png").data)⟩

/-- A stored general-wisdom row. -/
def sampleGeneral : KMatch :=
  ⟨("Little by little the bird builds its nest").data, ("West Africa").data, none⟩

/-- Clients for which every call fails or returns nothing. -/
def toolsAllMiss : Tools :=
  { embed_query := fun _ => Except.error ⟨("embedding service down").data⟩
    match_cultural_knowledge := fun _ _ _ => Except.ok []
    table_contains_limit := fun _ _ _ => Except.ok []
    invoke := fun _ => Except.ok (("fine").data) }

/-- Clients for which the similarity search hits `sampleMatch`. -/
def toolsHit : Tools :=
  { embed_query := fun _ => Except.ok []
    match_cultural_knowledge := fun _ _ _ => Except.ok [sampleMatch]
    table_contains_limit := fun _ _ _ => Except.ok []
    invoke := fun _ => Except.ok (("An explanation").data) }

/-- Clients for which tier 1 fails and the general query hits `sampleGeneral`. -/
def toolsGen : Tools :=
  { embed_query := fun _ => Except.error ⟨("embedding service down").data⟩
    match_cultural_knowledge := fun _ _ _ => Except.ok []
    table_contains_limit := fun _ _ _ => Except.ok [sampleGeneral]
    invoke := fun _ => Except.ok (("fine").data) }

theorem get_context_never_raises_tiers_witness :
    tier1_lookup (("heat").data) toolsAllMiss = none
    ∧ get_context (("heat").data) toolsAllMiss = Except.ok (no_context_narrative, none) :=
  ⟨(get_context_never_raises_tiers (("heat").data) toolsAllMiss).2.1
      ⟨("embedding service down").data⟩ rfl,
   (get_context_never_raises_tiers (("heat").data) toolsAllMiss).2.2.2.2 rfl trivial⟩

theorem get_context_specific_match_witness :
    get_context (("Ohms Law").data) toolsHit
      = Except.ok (specific_narrative sampleMatch, sampleMatch.image_url)
    ∧ (∃ a b, specific_narrative sampleMatch = a ++ sampleMatch.content ++ b)
    ∧ (∃ a b, specific_narrative sampleMatch = a ++ sampleMatch.region ++ b) :=
  get_context_specific_match (("Ohms Law").data) toolsHit [] sampleMatch [] rfl rfl

theorem get_context_general_fallback_witness :
    get_context (("photosynthesis").data)
        { toolsHit with table_contains_limit := fun _ _ _ => Except.error ⟨("boom").data⟩ }
      = Except.ok (specific_narrative sampleMatch, sampleMatch.image_url)
    ∧ (get_context (("photosynthesis").data) toolsGen
        = Except.ok (general_narrative sampleGeneral, none)
      ∧ (∃ a b, general_narrative sampleGeneral = a ++ sampleGeneral.content ++ b)
      ∧ (∃ a b, general_narrative sampleGeneral = a ++ sampleGeneral.region ++ b)) :=
  ⟨(get_context_general_fallback (("photosynthesis").data) toolsHit).1 [] sampleMatch []
      (fun _ _ _ => Except.error ⟨("boom").data⟩) rfl rfl,
   (get_context_general_fallback (("photosynthesis").data) toolsGen).2 sampleGeneral [] rfl rfl⟩

/- ### Claim support: orchestrator helpers -/

theorem fallback_image_url_ne_nil (subject : Str) : fallback_image_url subject ≠ [] := by
  unfold fallback_image_url
  intro h
  rw [List.append_eq_nil, List.append_eq_nil] at h
  have := h.1.1
  simp at this

/-- Inversion of a successful orchestrator body run: the visual component is
exactly the context image when truthy, else the synthesised fallback. -/
theorem body_visual_eq {env : Env} {subject language mode : Str} { is_whatsapp : Bool}
    {tools : Tools} {t c : Str} {v : Option Str} {n0 : Str} {v0 : Option Str}
    (htools : env.get_ai_tools = Except.ok tools)
    (hgc : get_context subject tools = Except.ok (n0, v0))
    (hbody : ask_the_brain_body env subject language mode is_whatsapp = Except.ok (t, c, v)) :
    v = (if pyTruthy v0 then v0 else some (fallback_image_url subject)) ∧ c = n0 := by
  unfold ask_the_brain_body at hbody
  rw [htools] at hbody
  simp only [hgc] at hbody
  cases hinv : tools.invoke (formatTemplate subject n0
      (prompt_template mode language is_whatsapp)) with
  | error e =>
    simp only [hinv] at hbody
    exact Except.noConfusion hbody
  | ok out =>
    simp only [hinv, Except.ok.injEq, Prod.mk.injEq] at hbody
    exact ⟨hbody.2.2.symm, hbody.2.1.symm⟩

/-- On every successful body run the visual URL is a non-empty string. -/
theorem body_visual_truthy {env : Env} {subject language mode : Str} { is_whatsapp : Bool}
    {t c : Str} {v : Option Str}
    (hbody : ask_the_brain_body env subject language mode is_whatsapp = Except.ok (t, c, v)) :
    ∃ u, v = some u ∧ u ≠ [] := by
  unfold ask_the_brain_body at hbody
  cases he : env.get_ai_tools with
  | error e =>
    simp only [he] at hbody
    exact Except.noConfusion hbody
  | ok tools =>
    rw [he] at hbody
    obtain ⟨n0, v0, hgc⟩ := get_context_ok subject tools
    simp only [hgc] at hbody
    cases hinv : tools.invoke (formatTemplate subject n0
        (prompt_template mode language is_whatsapp)) with
    | error e =>
      simp only [hinv] at hbody
      exact Except.noConfusion hbody
    | ok out =>
      simp only [hinv, Except.ok.injEq, Prod.mk.injEq] at hbody
      obtain ⟨h1, h2, h3⟩ := hbody
      cases hv0 : v0 with
      | none =>
        rw [hv0] at h3
        exact ⟨fallback_image_url subject, h3.symm, fallback_image_url_ne_nil subject⟩
      | some u =>
        rw [hv0] at h3
        by_cases hu : u.isEmpty
        · have : pyTruthy (some u) = false := by simp [pyTruthy, hu]
          rw [this] at h3
          simp only [if_neg Bool.false_ne_true] at h3
          exact ⟨fallback_image_url subject, h3.symm, fallback_image_url_ne_nil subject⟩
        · have hne : u ≠ [] := by
            intro hx; exact hu (by rw [hx]; rfl)
          have : pyTruthy (some u) = true := by simp [pyTruthy, hu]
          rw [this] at h3
          simp only [if_pos] at h3
          exact ⟨u, h3.symm, hne⟩

/-- Claim C1: the orchestrator never raises — whenever its `try` body ends in
an exception `e`, `ask_the_brain` returns the well-formed degraded triple whose
text is the error description `"Error: " ++ str(e)`, whose context narrative is
the sentinel `"Error"`, and whose visual URL is null. -/
theorem ask_the_brain_error_triple (env : Env) (subject language mode : Str)
    ( is_whatsapp : Bool) (e : PyExc)
    (h : ask_the_brain_body env subject language mode is_whatsapp = Except.error e) :
    ask_the_brain env subject language mode is_whatsapp
      = (("Error: ").data ++ e.msg, ("Error").data, none) := by
  unfold ask_the_brain
  rw [h]

/-- A process environment whose client-bundle loader raises at once. -/
def envDown : Env := ⟨Except.error ⟨("could not connect").data⟩⟩

theorem ask_the_brain_error_triple_witness :
    ask_the_brain envDown (("gravity").data) (("english").data) (("standard").data) false
      = (("Error: ").data ++ ("could not connect").data, ("Error").data, none) :=
  ask_the_brain_error_triple envDown (("gravity").data) (("english").data) (("standard").data)
    false ⟨("could not connect").data⟩ rfl

/-- Claim C6: the visual URL policy of the orchestrator on the success path — when
Knowledge Lookup returned no image URL the subject-derived fallback
illustration URL is returned (so the visual is populated even when both search
tiers missed), and when the matched entry carries a stored (non-empty) image
URL that stored URL is returned unchanged, with no fallback substituted; in
all success cases the visual URL is non-null. -/
theorem visual_url_policy (env : Env) (subject language mode : Str) ( is_whatsapp : Bool)
    (tools : Tools) (t c : Str) (v : Option Str)
    (htools : env.get_ai_tools = Except.ok tools)
    (hbody : ask_the_brain_body env subject language mode is_whatsapp = Except.ok (t, c, v)) :
    (∀ n, get_context subject tools = Except.ok (n, none) →
      v = some (fallback_image_url subject))
    ∧ (∀ n u, get_context subject tools = Except.ok (n, some u) → u ≠ [] → v = some u)
    ∧ v ≠ none := by
  refine ⟨?_, ?_, ?_⟩
  · intro n hgc
    obtain ⟨hv, _⟩ := body_visual_eq htools hgc hbody
    rw [hv]
    rfl
  · intro n u hgc hu
    obtain ⟨hv, _⟩ := body_visual_eq htools hgc hbody
    rw [hv]
    have : pyTruthy (some u) = true := by
      simp [pyTruthy]
      intro hx
      exact absurd hx hu
    rw [this]
    simp
  · obtain ⟨u, hu, _⟩ := body_visual_truthy hbody
    rw [hu]
    simp

/-- An environment whose bundle is `toolsHit` (stored image present). -/
def envHit : Env := ⟨Except.ok toolsHit⟩

theorem visual_url_policy_witness :
    (ask_the_brain_body envHit (("Ohms Law").data) (("english").data) (("standard").data) true).isOk
    ∧ ∀ t c v, ask_the_brain_body envHit (("Ohms Law").data) (("english").data)
        (("standard").data) true = Except.ok (t, c, v) →
      v = some (("https://example.org/circuit.png").data) := by
  constructor
  · rfl
  · intro t c v hbody
    have h := (visual_url_policy envHit (("Ohms Law").data) (("english").data)
      (("standard").data) true toolsHit t c v rfl hbody).2.1
    exact h (specific_narrative sampleMatch) (("https://example.org/circuit.png").data)
      (by unfold get_context; rw [tier1_lookup_some (("Ohms Law").data) toolsHit rfl rfl]; rfl)
      (by decide)

/-- Claim C10: the fallback illustration URL is synthesised regardless of the
audience, so on every successful body run for the WhatsApp audience the
returned visual URL is non-null, and the TwiML envelope of the `/whatsapp` endpoint
contains the `Media` element wrapping it. -/
theorem whatsapp_media_on_success (env : Env) (Body : Str)
    (h : ∃ r, ask_the_brain_body env Body (("english").data) (("standard").data) true
      = Except.ok r) :
    ∃ t c u, ask_the_brain env Body (("english").data) (("standard").data) true = (t, c, some u)
      ∧ u ≠ []
      ∧ whatsapp_reply env Body
        = ("<Response><Message>").data ++ ("<Body>").data ++ t ++ ("</Body>").data
          ++ ("<Media>").data ++ u ++ ("</Media>").data ++ ("</Message></Response>").data := by
  obtain ⟨⟨t, c, v⟩, hbody⟩ := h
  obtain ⟨u, hv, hu⟩ := body_visual_truthy hbody
  subst hv
  have hask : ask_the_brain env Body (("english").data) (("standard").data) true
      = (t, c, some u) := by
    unfold ask_the_brain
    rw [hbody]
  refine ⟨t, c, u, hask, hu, ?_⟩
  unfold whatsapp_reply
  rw [hask]
  have htr : pyTruthy (some u) = true := by
    simp [pyTruthy]
    intro hx
    exact absurd hx hu
  rw [htr]
  simp [List.append_assoc]

theorem whatsapp_media_on_success_witness :
    ∃ t c u,
      ask_the_brain envHit (("Ohms Law").data) (("english").data) (("standard").data) true
        = (t, c, some u)
      ∧ u ≠ []
      ∧ whatsapp_reply envHit (("Ohms Law").data)
        = ("<Response><Message>").data ++ ("<Body>").data ++ t ++ ("</Body>").data
          ++ ("<Media>").data ++ u ++ ("</Media>").data ++ ("</Message></Response>").data :=
  whatsapp_media_on_success envHit (("Ohms Law").data) ⟨_, rfl⟩

/- ### Claim support: prompt interpolation -/

theorem noBrace_tone (language : Str) : Char.ofNat 123 ∉ tone_instruction language := by
  unfold tone_instruction
  split
  · decide
  · decide

theorem noBrace_formatting ( is_whatsapp : Bool) :
    Char.ofNat 123 ∉ formatting_instruction is_whatsapp := by
  unfold formatting_instruction
  split
  · decide
  · decide

/-- Claim C5 (amended): the rendered prompt interpolates `subject` verbatim at
exactly two sites — once inside the persona block (both modes splice
`{subject}` there) and once at the `Student asks:` line — and the context
narrative at one site in griot mode and two sites in standard mode; the
surrounding fragments are fixed and placeholder-free. -/
theorem prompt_interpolation_sites (subject context mode language : Str) ( is_whatsapp : Bool) :
    (mode = ("griot").data →
      formatTemplate subject context (prompt_template mode language is_whatsapp)
        = tplA ++ griotA ++ subject
            ++ (griotB ++ tplB ++ tone_instruction language ++ tplC
                ++ formatting_instruction is_whatsapp ++ tplD1)
            ++ subject ++ tplD2 ++ context ++ tplD3)
    ∧ (mode ≠ ("griot").data →
      formatTemplate subject context (prompt_template mode language is_whatsapp)
        = tplA ++ stdA ++ subject ++ stdB ++ context
            ++ (stdC ++ tplB ++ tone_instruction language ++ tplC
                ++ formatting_instruction is_whatsapp ++ tplD1)
            ++ subject ++ tplD2 ++ context ++ tplD3) := by
  constructor
  · intro hmode
    unfold prompt_template system_instruction
    rw [if_pos hmode]
    unfold system_instruction_griot
    simp only [List.append_assoc]
    rw [formatTemplate_lit tplA subject context _ (by decide)]
    rw [formatTemplate_lit griotA subject context _ (by decide)]
    rw [formatTemplate_subj]
    rw [formatTemplate_lit griotB subject context _ (by decide)]
    rw [formatTemplate_lit tplB subject context _ (by decide)]
    rw [formatTemplate_lit (tone_instruction language) subject context _ (noBrace_tone language)]
    rw [formatTemplate_lit tplC subject context _ (by decide)]
    rw [formatTemplate_lit (formatting_instruction is_whatsapp) subject context _
      (noBrace_formatting is_whatsapp)]
    rw [formatTemplate_lit tplD1 subject context _ (by decide)]
    rw [formatTemplate_subj]
    rw [formatTemplate_lit tplD2 subject context _ (by decide)]
    rw [formatTemplate_ctx]
    rw [formatTemplate_all_lit tplD3 subject context (by decide)]
  · intro hmode
    unfold prompt_template system_instruction
    rw [if_neg hmode]
    unfold system_instruction_standard
    simp only [List.append_assoc]
    rw [formatTemplate_lit tplA subject context _ (by decide)]
    rw [formatTemplate_lit stdA subject context _ (by decide)]
    rw [formatTemplate_subj]
    rw [formatTemplate_lit stdB subject context _ (by decide)]
    rw [formatTemplate_ctx]
    rw [formatTemplate_lit stdC subject context _ (by decide)]
    rw [formatTemplate_lit tplB subject context _ (by decide)]
    rw [formatTemplate_lit (tone_instruction language) subject context _ (noBrace_tone language)]
    rw [formatTemplate_lit tplC subject context _ (by decide)]
    rw [formatTemplate_lit (formatting_instruction is_whatsapp) subject context _
      (noBrace_formatting is_whatsapp)]
    rw [formatTemplate_lit tplD1 subject context _ (by decide)]
    rw [formatTemplate_subj]
    rw [formatTemplate_lit tplD2 subject context _ (by decide)]
    rw [formatTemplate_ctx]
    rw [formatTemplate_all_lit tplD3 subject context (by decide)]

theorem prompt_interpolation_sites_witness :
    formatTemplate (("light").data) (("river story").data)
        (prompt_template (("griot").data) (("english").data) false)
      = tplA ++ griotA ++ ("light").data
          ++ (griotB ++ tplB ++ tone_instruction (("english").data) ++ tplC
              ++ formatting_instruction false ++ tplD1)
          ++ ("light").data ++ tplD2 ++ ("river story").data ++ tplD3 :=
  (prompt_interpolation_sites (("light").data) (("river story").data) (("griot").data)
    (("english").data) false).1 rfl

set_option maxRecDepth 100000 in
/-- Claim C5 (counterexample): with a fresh subject that occurs nowhere in the
template fragments, the rendered standard-mode prompt contains the subject at
two positions, not exactly once as claimed. -/
theorem prompt_subject_not_once :
    countOccur (("XQZV").data)
      (formatTemplate (("XQZV").data) (("KWYJ").data)
        (prompt_template (("standard").data) (("english").data) false)) ≠ 1 := by
  decide

theorem hasImageTag_tagged : ∀ (pre d post : Str), '\n' ∉ d → ']' ∉ d →
    hasImageTag (pre ++ tagLit d ++ post) = true := by
  intro pre d post hnl hrb
  induction pre with
  | nil =>
    have he : ([] : Str) ++ tagLit d ++ post = openTag ++ (d ++ ']' :: post) := by
      unfold tagLit
      simp [List.append_assoc]
    rw [he, openTag_cons]
    show hasImageTag ('[' :: 'I' :: 'M' :: 'A' :: 'G' :: 'E' :: ':' :: ' ' :: (d ++ ']' :: post))
      = true
    rw [hasImageTag_cons_or]
    have hp : openTag.isPrefixOf
        ('[' :: 'I' :: 'M' :: 'A' :: 'G' :: 'E' :: ':' :: ' ' :: (d ++ ']' :: post)) = true := by
      rw [openTag_cons]
      simp [ List.isPrefixOf_cons₂]
    have hd : (('I' :: 'M' :: 'A' :: 'G' :: 'E' :: ':' :: ' ' :: (d ++ ']' :: post)).drop 7)
        = d ++ ']' :: post := rfl
    rw [hp, hd, takeDesc_closed d post hrb hnl]
    simp
  | cons c pre2 ih =>
    rw [List.cons_append, List.cons_append]
    rw [hasImageTag_cons_or]
    rw [ih]
    simp

/-- Claim C7: image-tag expansion returns texts without any `[IMAGE: ...]` tag
unchanged; each tag occurrence is replaced independently by the markdown image
whose URL segment percent-decodes to the UTF-8 bytes of
`"educational vector diagram of " ++ desc ++ fixed qualifier suffix`; this
holds for a single leftmost tag and for any interleaving of tag-free segments
with tags, and the tag detector fires on every text embedding a tag. -/
theorem process_text_images_spec :
    (∀ text : Str, hasImageTag text = false → process_text_images text = text)
    ∧ (∀ seg d post : Str, '[' ∉ seg → '\n' ∉ d → ']' ∉ d →
        process_text_images (seg ++ tagLit d ++ post)
          = seg ++ image_markdown d ++ process_text_images post)
    ∧ (∀ (ps : List (Str × Str)) (final : Str),
        (∀ p ∈ ps, '[' ∉ p.1 ∧ '\n' ∉ p.2 ∧ ']' ∉ p.2) → '[' ∉ final →
        process_text_images (taggedText ps final) = replacedText ps final)
    ∧ (∀ pre d post : Str, '\n' ∉ d → ']' ∉ d →
        hasImageTag (pre ++ tagLit d ++ post) = true)
    ∧ (∀ d : Str, percentDecode (pyQuote (image_prompt d)) = strUtf8 (image_prompt d)) :=
  ⟨fun text h => pti_no_tag text.length text le_rfl h,
   pti_step,
   pti_tagged,
   hasImageTag_tagged,
   fun d => pyQuote_decode (image_prompt d)⟩

theorem process_text_images_spec_witness :
    process_text_images (("no tags in here").data) = ("no tags in here").data
    ∧ process_text_images (("See ").data ++ tagLit (("a circuit").data) ++ [])
        = ("See ").data ++ image_markdown (("a circuit").data) ++ process_text_images [] :=
  ⟨process_text_images_spec.1 (("no tags in here").data) (by decide),
   process_text_images_spec.2.1 (("See ").data) (("a circuit").data) []
     (by decide) (by decide) (by decide)⟩

/-- Claim C8 (counterexample): messaging cleanup is not idempotent — on
`"***"` one application leaves the residual double-emphasis `"**"`, and a
second application collapses it further to `"*"`. -/
theorem clean_for_whatsapp_not_idempotent :
    clean_for_whatsapp (clean_for_whatsapp (("***").data))
      ≠ clean_for_whatsapp (("***").data) := by
  decide

/-- Claim C8 (amended): one cleaning pass always removes every math delimiter
`$`, but it can leave residual `**` (e.g. from `"***"`) and residual `#`
(inside a rewritten heading line); cleanup is idempotent on the inputs where
no `#` occurs and deleting `$` creates no adjacent `**` pair. -/
theorem clean_for_whatsapp_idempotent_conditional (t : Str)
    (h1 : '#' ∉ t) (h2 : hasTwoStars (t.filter (fun c => c ≠ '$')) = false) :
    clean_for_whatsapp (clean_for_whatsapp t) = clean_for_whatsapp t
    ∧ ∀ s : Str, '$' ∉ clean_for_whatsapp s := by
  have hdollar : ∀ s : Str, '$' ∉ clean_for_whatsapp s := by
    intro s hmem
    unfold clean_for_whatsapp at hmem
    have hmem2 := mem_of_pyStrip hmem
    rw [List.mem_filter] at hmem2
    simp at hmem2
  refine ⟨?_, hdollar⟩
  have hT : hasTwoStars t = false := by
    cases hx : hasTwoStars t with
    | false => rfl
    | true =>
      have hc := hasTwoStars_filter hx
      rw [h2] at hc
      exact Bool.noConfusion hc
  have e1 : clean_for_whatsapp t = pyStrip (t.filter (fun c => c ≠ '$')) := by
    unfold clean_for_whatsapp
    rw [replaceStarStar_no_two t hT, hashSub_no_hash h1]
  have hu_hash : '#' ∉ pyStrip (t.filter (fun c => c ≠ '$')) := fun hm =>
    h1 ((List.mem_filter.mp (mem_of_pyStrip hm)).1)
  have hu_two : hasTwoStars (pyStrip (t.filter (fun c => c ≠ '$'))) = false :=
    hasTwoStars_pyStrip h2
  have e2 : clean_for_whatsapp (pyStrip (t.filter (fun c => c ≠ '$')))
      = pyStrip (t.filter (fun c => c ≠ '$')) := by
    unfold clean_for_whatsapp
    rw [replaceStarStar_no_two _ hu_two, hashSub_no_hash hu_hash]
    rw [List.filter_eq_self.mpr (fun a ha => (List.mem_filter.mp (mem_of_pyStrip ha)).2)]
    exact pyStrip_idem _
  rw [e1, e2]

theorem clean_for_whatsapp_idempotent_conditional_witness :
    clean_for_whatsapp (clean_for_whatsapp (("  hello *world* $5 ").data))
      = clean_for_whatsapp (("  hello *world* $5 ").data)
    ∧ '$' ∉ clean_for_whatsapp (("a$b").data) :=
  ⟨(clean_for_whatsapp_idempotent_conditional (("  hello *world* $5 ").data)
      (by decide) (by decide)).1,
   (clean_for_whatsapp_idempotent_conditional [] (by decide) (by decide)).2 (("a$b").data)⟩

/- ### Claim support: loader invariant -/

/-- Single-thread invariant: at most one construction, and none before the
thread has passed its check. -/
def loaderInv1 : LoaderState → Prop
| ⟨_, builds, [pc]⟩ => builds ≤ 1 ∧ (pc = LoaderPc.done ∨ builds = 0)
| _ => False

theorem loaderInv1_step {s s2 : LoaderState} (hs : loaderInv1 s) (st : LoaderStep s s2) :
    loaderInv1 s2 := by
  obtain ⟨g, b, pcs⟩ := s
  match pcs, hs with
  | [pc], hs =>
    obtain ⟨hb, hpc⟩ := hs
    cases st with
    | check_miss i h hg =>
      match i, h with
      | 0, h =>
        simp at h
        subst h
        have hb0 : b = 0 := by
          rcases hpc with hd | hz
          · cases hd
          · exact hz
        exact ⟨hb, Or.inr hb0⟩
      | n + 1, h => simp at h
    | check_hit i t h hg =>
      match i, h with
      | 0, h =>
        simp at h
        subst h
        exact ⟨hb, Or.inl rfl⟩
      | n + 1, h => simp at h
    | build i h =>
      match i, h with
      | 0, h =>
        simp at h
        subst h
        have hb0 : b = 0 := by
          rcases hpc with hd | hz
          · cases hd
          · exact hz
        subst hb0
        exact ⟨Nat.le_refl 1, Or.inl rfl⟩
      | n + 1, h => simp at h

theorem loaderInv1_builds {s : LoaderState} (h : loaderInv1 s) : s.builds ≤ 1 := by
  obtain ⟨g, b, pcs⟩ := s
  match pcs with
  | [] => exact h.elim
  | pc :: pc2 :: rest => exact h.elim
  | [pc] => exact h.1

/-- Claim C9 (counterexample): the loader has no mutex or atomic check-and-set;
with two threads entering `get_ai_tools` concurrently, both can pass the
`is None` check before either assigns, so a state with two bundle
constructions is reachable — "created at most once" fails under concurrency. -/
theorem lazy_init_double_construction :
    ¬ (∀ s : LoaderState, loaderReach (loaderInit 2) s → s.builds ≤ 1) := by
  intro hmono
  have st1 : LoaderStep (loaderInit 2)
      ⟨none, 0, [LoaderPc.initializing, LoaderPc.checking]⟩ :=
    LoaderStep.check_miss (loaderInit 2) 0 rfl rfl
  have st2 : LoaderStep ⟨none, 0, [LoaderPc.initializing, LoaderPc.checking]⟩
      ⟨none, 0, [LoaderPc.initializing, LoaderPc.initializing]⟩ :=
    LoaderStep.check_miss ⟨none, 0, [LoaderPc.initializing, LoaderPc.checking]⟩ 1 rfl rfl
  have st3 : LoaderStep ⟨none, 0, [LoaderPc.initializing, LoaderPc.initializing]⟩
      ⟨some 0, 1, [LoaderPc.done, LoaderPc.initializing]⟩ :=
    LoaderStep.build ⟨none, 0, [LoaderPc.initializing, LoaderPc.initializing]⟩ 0 rfl
  have st4 : LoaderStep ⟨some 0, 1, [LoaderPc.done, LoaderPc.initializing]⟩
      ⟨some 1, 2, [LoaderPc.done, LoaderPc.done]⟩ :=
    LoaderStep.build ⟨some 0, 1, [LoaderPc.done, LoaderPc.initializing]⟩ 1 rfl
  have hr : loaderReach (loaderInit 2) ⟨some 1, 2, [LoaderPc.done, LoaderPc.done]⟩ :=
    Relation.ReflTransGen.head st1 (Relation.ReflTransGen.head st2
      (Relation.ReflTransGen.head st3 (Relation.ReflTransGen.head st4
        Relation.ReflTransGen.refl)))
  exact absurd (hmono _ hr) (by decide)

/-- Claim C9 (amended): the source guards the initialisation only by the
sequential `is None` check — when first requests are serialized (a single
thread runs the loader), the bundle is constructed at most once; under
concurrent first requests the unguarded check-then-assign allows duplicate
construction (see the counterexample). -/
theorem lazy_init_single_thread_once (s : LoaderState)
    (h : loaderReach (loaderInit 1) s) : s.builds ≤ 1 := by
  have hinv : loaderInv1 s := by
    induction h with
    | refl => exact ⟨by omega, Or.inr rfl⟩
    | tail hreach hstep ih => exact loaderInv1_step ih hstep
  exact loaderInv1_builds hinv

theorem lazy_init_single_thread_once_witness : (loaderInit 1).builds ≤ 1 :=
  lazy_init_single_thread_once (loaderInit 1) Relation.ReflTransGen.refl
